import Mathlib

/-!
# Upload agent chunk pipeline (`src/ua/chunk.cpp`)

A shallow embedding of the per-chunk pipeline of the upload agent:
`Chunk::read`, `Chunk::compress`, `curlReadFunction`, `Chunk::upload`,
`Chunk::clear`, `Chunk::uploadURL` and `Chunk::size`.

Conventions of the embedding.

* `int64_t` values are integers; every arithmetic result that the source
  stores in an `int64_t` goes through `toInt64` (wrap modulo `2^64`), and
  every conversion to `size_t` goes through `toSizeT` (reduction modulo
  `2^64`).  `size_t` products are reduced modulo `2^64`.
* `std::vector<char>` is a list of bytes; capacity is not modelled.
* A method that can throw returns its outcome together with the chunk state
  it leaves behind, so that the state after a failure can be inspected.
* The local file system, the remote API and libcurl are parameters
  (`FileSystem`, `Transport`).
-/

namespace UA

/-- One `char` of chunk data. -/
abbrev Byte := Fin 256

/-- Wrap an integer into the `int64_t` range (reduction modulo `2^64`). -/
def toInt64 (x : Int) : Int := (x + 9223372036854775808) % 18446744073709551616 - 9223372036854775808

/-- Conversion of an integer to `size_t` (reduction modulo `2^64`). -/
def toSizeT (x : Int) : Nat := (x % 18446744073709551616).toNat

/-- Product of two `size_t` values, as computed by the machine. -/
def mulSizeT (a b : Nat) : Nat := (a * b) % 18446744073709551616

/-- Increment of an `unsigned int`. -/
def succUInt (a : Nat) : Nat := (a + 1) % 4294967296

/-- The fields of `Chunk` that `chunk.cpp` uses.  The source field `end` is
spelled `end_` because `end` is reserved. -/
structure Chunk where
  localFile : String
  fileID : String
  index : Nat
  triesLeft : Nat
  data : List Byte
  start : Int
  end_ : Int
  uploadOffset : Int
  deriving DecidableEq, Repr

/-- Errors raised by the pipeline (`std::runtime_error` with the respective
message, and the `std::length_error` of `vector::resize`). -/
inductive Error where
  | readFailed
  | lengthError
  | targetUnavailable
  | initFailed
  | configFailed (code : Nat)
  | performFailed (code : Nat)
  | requestFailed (status : Int)
  deriving DecidableEq, Repr

/-- Embedding of `Chunk::size`: `end - start` as an `int64_t`. -/
def Chunk.size (c : Chunk) : Int := toInt64 (c.end_ - c.start)

/-! ## Local files and `std::ifstream` -/

/-- Contents of the local files; `none` for a file that cannot be opened. -/
abbrev FileSystem := String → Option (List Byte)

/-- The part of an input file stream that `Chunk::read` observes. -/
structure IfStream where
  content : List Byte
  pos : Nat
  fail : Bool
  deriving DecidableEq, Repr

/-- Construction of an `ifstream`: the fail bit is set when the open fails. -/
def IfStream.openFile (f : Option (List Byte)) : IfStream :=
  match f with
  | some bytes => { content := bytes, pos := 0, fail := false }
  | none => { content := [], pos := 0, fail := true }

/-- Stream operation `seekg(off)`: no effect on a failed stream; a negative position fails;
a position past the end of the file is accepted. -/
def IfStream.seekg (s : IfStream) (off : Int) : IfStream :=
  if s.fail then s
  else if off < 0 then { s with fail := true }
  else { s with pos := off.toNat }

/-- Stream operation `read(buf, n)`: extracts up to `n` bytes from the current position and
sets the fail bit when fewer than `n` are available.  Returns the stream and
the bytes stored into the destination. -/
def IfStream.read (s : IfStream) (n : Nat) : IfStream × List Byte :=
  if s.fail then (s, [])
  else
    let got := (s.content.drop s.pos).take n
    if got.length < n then ({ s with pos := s.pos + got.length, fail := true }, got)
    else ({ s with pos := s.pos + n }, got)

/-- Largest size a `vector<char>` accepts (`max_size()`). -/
def vectorMaxSize : Nat := 9223372036854775807

/-- Embedding of `Chunk::read`.  The statements `data.clear(); data.resize(len)`
leave `len` zero bytes (or throw `length_error`, leaving the cleared vector,
when `len` converted to `size_t` exceeds `max_size()`; running out of memory is
not modelled); the stream then overwrites a prefix of them, and the fail bit
decides between the normal return and the `readData failed` error.  The result
pairs the outcome with the chunk state left behind. -/
def Chunk.read (fs : FileSystem) (c : Chunk) : Except Error Unit × Chunk :=
  let len := toInt64 (c.end_ - c.start)
  if toSizeT len > vectorMaxSize then
    (.error .lengthError, { c with data := [] })
  else
    let zeros : List Byte := List.replicate (toSizeT len) 0
    let s := (IfStream.openFile (fs c.localFile)).seekg c.start
    let r := s.read (toSizeT len)
    let data := r.2 ++ zeros.drop r.2.length
    if r.1.fail then (.error .readFailed, { c with data := data })
    else (.ok (), { c with data := data })

/-- Embedding of `Chunk::compress`: the body is empty. -/
def Chunk.compress (c : Chunk) : Chunk := c

/-- Embedding of `Chunk::clear`: swap `data` with an empty vector. -/
def Chunk.clear (c : Chunk) : Chunk := { c with data := [] }

/-! ## The read callback -/

/-- What one call of `curlReadFunction` does: the returned count, the bytes
`memcpy` stored into the destination offered by the transport (`none` when the
source range `[uploadOffset, uploadOffset + count)` is not inside `data`, where
the copy reads outside the vector and the behaviour of the source is
undefined; `count` and `chunk` then record the values the code computes around
the copy), and the chunk state after the call. -/
structure ReadCall where
  count : Nat
  copied : Option (List Byte)
  chunk : Chunk
  deriving DecidableEq, Repr

/-- The bytes `memcpy(ptr, &data[off], n)` copies; `none` when the range leaves
the vector. -/
def memcpyFrom (data : List Byte) (off : Int) (n : Nat) : Option (List Byte) :=
  if 0 ≤ off ∧ off + n ≤ data.length then some ((data.drop off.toNat).take n) else none

/-- The local `bytesToCopy` of `curlReadFunction`. -/
def bytesToCopy (c : Chunk) (size nmemb : Nat) : Nat :=
  let bytesLeft : Int := toInt64 (c.size - c.uploadOffset)
  min (toSizeT bytesLeft) (mulSizeT size nmemb)

/-- Embedding of `curlReadFunction(ptr, size, nmemb, chunk)`: copy and advance
the cursor only when `bytesToCopy > 0`; return `bytesToCopy`. -/
def curlReadFunction (c : Chunk) (size nmemb : Nat) : ReadCall :=
  let n := bytesToCopy c size nmemb
  if n > 0 then
    { count := n
      copied := memcpyFrom c.data c.uploadOffset n
      chunk := { c with uploadOffset := toInt64 (c.uploadOffset + n) } }
  else
    { count := n, copied := some [], chunk := c }

/-- The transport driving the read callback: request `i` asks for
`(req i).1 * (req i).2` bytes; the transport keeps calling until the callback
returns `0` or it has made `fuel` calls.  The result lists the calls made. -/
def transfer : Nat → (Nat → Nat × Nat) → Nat → Chunk → List ReadCall
  | 0, _, _, _ => []
  | fuel + 1, req, i, c =>
    let r := curlReadFunction c (req i).1 (req i).2
    if r.count = 0 then [r] else r :: transfer fuel req (i + 1) r.chunk

/-- Chunk state after the listed calls. -/
def chunkAfter (c : Chunk) (calls : List ReadCall) : Chunk :=
  match calls.getLast? with
  | some r => r.chunk
  | none => c

/-- Concatenation of the bytes handed to the transport; `none` when some call
read outside the vector. -/
def servedBytes : List ReadCall → Option (List Byte)
  | [] => some []
  | r :: rest =>
    match r.copied, servedBytes rest with
    | some a, some b => some (a ++ b)
    | _, _ => none

/-- Sum of the counts returned by the listed calls. -/
def servedCount (calls : List ReadCall) : Nat := (calls.map ReadCall.count).sum

/-! ## Upload -/

/-- The collaborators of `Chunk::upload`: the remote API call behind
`uploadURL` (`none` when it throws) and the results of the libcurl calls, in
the order in which `upload` makes them.  During `curl_easy_perform` the library
invokes the read callback with `requests`, at most `maxCalls` times. -/
structure Transport where
  fileUpload : String → Nat → Option String
  initOk : Bool
  setoptPost : Nat
  setoptUrl : Nat
  setoptReadFunction : Nat
  setoptReadData : Nat
  setoptHttpHeader : Nat
  requests : Nat → Nat × Nat
  maxCalls : Nat
  performCode : Nat
  getinfoCode : Nat
  responseCode : Int

/-- What `Chunk::upload` leaves behind: the chunk, whether the easy handle is
still open (`curl_easy_init` without `curl_easy_cleanup`), whether the header
list is still allocated (`curl_slist_append` without `curl_slist_free_all`),
the header lines appended to the list, the URL configured, and the read
callbacks made during the transfer. -/
structure Session where
  chunk : Chunk
  handleOpen : Bool
  slistLive : Bool
  slist : List String
  url : Option String
  calls : List ReadCall

/-- Embedding of `Chunk::uploadURL`: asks the remote API for the URL of part
`index + 1`. -/
def Chunk.uploadURL (t : Transport) (c : Chunk) : Option String :=
  t.fileUpload c.fileID (succUInt c.index)

/-- The fixed content type line. -/
def contentTypeHeader : String := "Content-Type: application/octet-stream"

/-- The line `"Content-Length: " << n`. -/
def contentLengthHeader (n : Int) : String := "Content-Length: " ++ toString n

/-- The header list `upload` builds with two `curl_slist_append` calls. -/
def Chunk.requestHeaders (c : Chunk) : List String :=
  [contentTypeHeader, contentLengthHeader c.size]

/-- Embedding of `Chunk::upload`.  Every `checkConfigCURLcode` and
`checkPerformCURLcode` throws on a nonzero code, leaving the function at that
point; the status test is the one of the source,
`(responseCode < 200) && (responseCode >= 300)`; the two release calls are the
last statements of the body. -/
def Chunk.upload (t : Transport) (c : Chunk) : Except Error Unit × Session :=
  let s0 : Session :=
    { chunk := c, handleOpen := false, slistLive := false, slist := [], url := none, calls := [] }
  match c.uploadURL t with
  | none => (.error .targetUnavailable, s0)
  | some url =>
    if !t.initOk then (.error .initFailed, s0) else
    let s1 := { s0 with handleOpen := true }
    if t.setoptPost ≠ 0 then (.error (.configFailed t.setoptPost), s1) else
    if t.setoptUrl ≠ 0 then (.error (.configFailed t.setoptUrl), s1) else
    let s2 := { s1 with url := some url }
    if t.setoptReadFunction ≠ 0 then (.error (.configFailed t.setoptReadFunction), s2) else
    if t.setoptReadData ≠ 0 then (.error (.configFailed t.setoptReadData), s2) else
    let s3 := { s2 with slistLive := true, slist := c.requestHeaders }
    if t.setoptHttpHeader ≠ 0 then (.error (.configFailed t.setoptHttpHeader), s3) else
    let calls := transfer t.maxCalls t.requests 0 c
    let s4 := { s3 with calls := calls, chunk := chunkAfter c calls }
    if t.performCode ≠ 0 then (.error (.performFailed t.performCode), s4) else
    if t.getinfoCode ≠ 0 then (.error (.performFailed t.getinfoCode), s4) else
    if t.responseCode < 200 ∧ t.responseCode ≥ 300 then
      (.error (.requestFailed t.responseCode), s4)
    else
      (.ok (), { s4 with slistLive := false, handleOpen := false })

/-- The fields that identify a chunk and its retry budget agree in `a` and
`b`: `localFile`, `start`, `end`, `fileID`, `index` and `triesLeft`. -/
def Chunk.sameIdentity (a b : Chunk) : Prop :=
  a.localFile = b.localFile ∧ a.start = b.start ∧ a.end_ = b.end_ ∧
    a.fileID = b.fileID ∧ a.index = b.index ∧ a.triesLeft = b.triesLeft

instance (a b : Chunk) : Decidable (a.sameIdentity b) := by
  unfold Chunk.sameIdentity
  infer_instance

/-! ## Concrete inputs -/

/-- Ten bytes of file content. -/
def tenBytes : List Byte := [10, 11, 12, 13, 14, 15, 16, 17, 18, 19]

/-- Five bytes of file content. -/
def fiveBytes : List Byte := [10, 11, 12, 13, 14]

/-- A file system holding the 10-byte file `a.bin` and the 5-byte file
`short.bin`. -/
def demoFS : FileSystem := fun name =>
  if name = "a.bin" then some tenBytes
  else if name = "short.bin" then some fiveBytes
  else none

/-- The chunk `[0, 10)` of `a.bin` for part 0 of `F1`, freshly constructed. -/
def freshChunk : Chunk :=
  { localFile := "a.bin", fileID := "F1", index := 0, triesLeft := 3, data := [],
    start := 0, end_ := 10, uploadOffset := 0 }

/-- The chunk `[0, 10)` after a successful `read`. -/
def loadedChunk : Chunk := { freshChunk with data := tenBytes }

/-- The chunk `[0, 10)` as a completed upload leaves it. -/
def drainedChunk : Chunk := { loadedChunk with uploadOffset := 10 }

/-- The populated chunk `[0, 10)` with the cursor one past `end - start`. -/
def overrunChunk : Chunk := { loadedChunk with uploadOffset := 11 }

/-- The chunk `[0, 10)` holding a buffer of 12 bytes, longer than
`end - start`, with the cursor at 8. -/
def paddedChunk : Chunk := { freshChunk with data := tenBytes ++ [20, 21], uploadOffset := 8 }

/-- The chunk `[0, 10)` of the 5-byte file. -/
def shortChunk : Chunk := { freshChunk with localFile := "short.bin" }

/-- Requests of one element of 4 bytes each. -/
def fourAtATime : Nat → Nat × Nat := fun _ => (1, 4)

/-- A transport on which every call succeeds, that asks for 4 bytes at a time
and answers with `status`. -/
def stubTransport (status : Int) : Transport :=
  { fileUpload := fun _ _ => some "https://upload.example.org/part"
    initOk := true
    setoptPost := 0, setoptUrl := 0, setoptReadFunction := 0, setoptReadData := 0
    setoptHttpHeader := 0
    requests := fourAtATime
    maxCalls := 16
    performCode := 0, getinfoCode := 0
    responseCode := status }

/-- The stub transport with a failing `CURLOPT_URL` configuration (code 3). -/
def badUrlTransport : Transport := { stubTransport 201 with setoptUrl := 3 }

/-- The stub transport on which `curl_easy_perform` fails (code 56). -/
def resetTransport : Transport := { stubTransport 201 with performCode := 56 }

/-! ## Basic facts about the callback and the transfer loop -/

theorem sameIdentity_refl (c : Chunk) : c.sameIdentity c :=
  ⟨rfl, rfl, rfl, rfl, rfl, rfl⟩

theorem sameIdentity_trans {a b c : Chunk} (hab : a.sameIdentity b) (hbc : b.sameIdentity c) :
    a.sameIdentity c := by
  obtain ⟨h1, h2, h3, h4, h5, h6⟩ := hab
  obtain ⟨k1, k2, k3, k4, k5, k6⟩ := hbc
  exact ⟨h1.trans k1, h2.trans k2, h3.trans k3, h4.trans k4, h5.trans k5, h6.trans k6⟩

theorem curlReadFunction_pos (c : Chunk) (size nmemb : Nat)
    (h : 0 < bytesToCopy c size nmemb) :
    curlReadFunction c size nmemb =
      { count := bytesToCopy c size nmemb
        copied := memcpyFrom c.data c.uploadOffset (bytesToCopy c size nmemb)
        chunk := { c with uploadOffset := toInt64 (c.uploadOffset + bytesToCopy c size nmemb) } } := by
  simp only [curlReadFunction]
  rw [if_pos h]

theorem curlReadFunction_zero (c : Chunk) (size nmemb : Nat)
    (h : bytesToCopy c size nmemb = 0) :
    curlReadFunction c size nmemb = { count := 0, copied := some [], chunk := c } := by
  simp only [curlReadFunction]
  rw [if_neg (by omega), h]

theorem curlReadFunction_count (c : Chunk) (size nmemb : Nat) :
    (curlReadFunction c size nmemb).count = bytesToCopy c size nmemb := by
  rcases Nat.eq_zero_or_pos (bytesToCopy c size nmemb) with h | h
  · rw [curlReadFunction_zero c size nmemb h, h]
  · rw [curlReadFunction_pos c size nmemb h]

theorem curlReadFunction_frame (c : Chunk) (size nmemb : Nat) :
    c.sameIdentity (curlReadFunction c size nmemb).chunk ∧
      (curlReadFunction c size nmemb).chunk.data = c.data := by
  rcases Nat.eq_zero_or_pos (bytesToCopy c size nmemb) with h | h
  · rw [curlReadFunction_zero c size nmemb h]
    exact ⟨sameIdentity_refl c, rfl⟩
  · rw [curlReadFunction_pos c size nmemb h]
    exact ⟨⟨rfl, rfl, rfl, rfl, rfl, rfl⟩, rfl⟩

theorem transfer_frame (fuel : Nat) (req : Nat → Nat × Nat) :
    ∀ (i : Nat) (c : Chunk), ∀ r ∈ transfer fuel req i c,
      c.sameIdentity r.chunk ∧ r.chunk.data = c.data := by
  induction fuel with
  | zero => intro i c r hr; simp [transfer] at hr
  | succ n ih =>
    intro i c r hr
    have hstep := curlReadFunction_frame c (req i).1 (req i).2
    simp only [transfer] at hr
    split at hr
    · simp only [List.mem_singleton] at hr
      subst hr
      exact hstep
    · rcases List.mem_cons.mp hr with h | h
      · subst h
        exact hstep
      · have hrest := ih (i + 1) _ r h
        exact ⟨sameIdentity_trans hstep.1 hrest.1, hrest.2.trans hstep.2⟩

theorem chunkAfter_frame (c : Chunk) (calls : List ReadCall)
    (h : ∀ r ∈ calls, c.sameIdentity r.chunk ∧ r.chunk.data = c.data) :
    c.sameIdentity (chunkAfter c calls) ∧ (chunkAfter c calls).data = c.data := by
  unfold chunkAfter
  cases hl : calls.getLast? with
  | none => exact ⟨sameIdentity_refl c, rfl⟩
  | some r => exact h r (List.mem_of_getLast?_eq_some hl)

theorem upload_chunk_cases (t : Transport) (c : Chunk) :
    (Chunk.upload t c).2.chunk = c ∨
      (Chunk.upload t c).2.chunk = chunkAfter c (transfer t.maxCalls t.requests 0 c) := by
  unfold Chunk.upload
  cases c.uploadURL t with
  | none => exact Or.inl rfl
  | some url =>
    simp only
    repeat (first | exact Or.inl rfl | exact Or.inr rfl | split)

/-! ## Claims about `clear`, the frame of the pipeline and `upload` -/

/-- C8: `Chunk::clear` leaves the buffer empty (length 0) from every chunk
state; on a chunk whose buffer is already empty it changes nothing; and a
second `clear` changes nothing, so `clear` is idempotent. -/
theorem clear_releases_buffer (c : Chunk) :
    c.clear.data = [] ∧ c.clear.data.length = 0 ∧ (c.data = [] → c.clear = c) ∧
      c.clear.clear = c.clear := by
  refine ⟨rfl, rfl, ?_, rfl⟩
  intro h
  cases c
  simp only [Chunk.clear] at h ⊢
  rw [h]

/-- C9: whatever the outcome, `Chunk::read`, `Chunk::compress`,
`curlReadFunction`, `Chunk::upload` and `Chunk::clear` leave `localFile`,
`start`, `end`, `fileID`, `index` and `triesLeft` as they were; `compress`
changes nothing at all; `read` and `clear` touch only `data`, the callback and
`upload` only `uploadOffset`. -/
theorem pipeline_preserves_identity (fs : FileSystem) (t : Transport) (c : Chunk)
    (size nmemb : Nat) :
    (c.sameIdentity (Chunk.read fs c).2 ∧ (Chunk.read fs c).2.uploadOffset = c.uploadOffset) ∧
      c.compress = c ∧
      (c.sameIdentity (curlReadFunction c size nmemb).chunk ∧
        (curlReadFunction c size nmemb).chunk.data = c.data) ∧
      (c.sameIdentity (Chunk.upload t c).2.chunk ∧ (Chunk.upload t c).2.chunk.data = c.data) ∧
      (c.sameIdentity c.clear ∧ c.clear.uploadOffset = c.uploadOffset) := by
  refine ⟨?_, rfl, curlReadFunction_frame c size nmemb, ?_, ⟨rfl, rfl, rfl, rfl, rfl, rfl⟩, rfl⟩
  · unfold Chunk.read
    simp only
    split
    · exact ⟨⟨rfl, rfl, rfl, rfl, rfl, rfl⟩, rfl⟩
    · split <;> exact ⟨⟨rfl, rfl, rfl, rfl, rfl, rfl⟩, rfl⟩
  · rcases upload_chunk_cases t c with h | h
    · rw [h]
      exact ⟨sameIdentity_refl c, rfl⟩
    · rw [h]
      exact chunkAfter_frame c _ (transfer_frame t.maxCalls t.requests 0 c)

/-- C1 (evaluation of the code): `Chunk::upload` never raises the
"Request failed with HTTP status code" error, whatever the response status;
with a transport that answers 500 to the populated chunk `[0, 10)` it returns
normally, as it does for 201. -/
theorem upload_ignores_response_status :
    (∀ (t : Transport) (c : Chunk) (status : Int),
        (Chunk.upload t c).1 ≠ .error (.requestFailed status)) ∧
      (Chunk.upload (stubTransport 500) loadedChunk).1 = .ok () ∧
      (Chunk.upload (stubTransport 201) loadedChunk).1 = .ok () := by
  refine ⟨?_, rfl, rfl⟩
  intro t c status
  unfold Chunk.upload
  cases c.uploadURL t with
  | none => simp
  | some url =>
    simp only
    have hfalse : ¬ (t.responseCode < 200 ∧ t.responseCode ≥ 300) := by omega
    rw [if_neg hfalse]
    split_ifs <;> simp

theorem upload_calls_cases (t : Transport) (c : Chunk) :
    (Chunk.upload t c).2.calls = [] ∨
      (Chunk.upload t c).2.calls = transfer t.maxCalls t.requests 0 c := by
  unfold Chunk.upload
  cases c.uploadURL t with
  | none => exact Or.inl rfl
  | some url =>
    simp only
    split_ifs <;> first | exact Or.inl rfl | exact Or.inr rfl

theorem transfer_of_zero (fuel : Nat) (req : Nat → Nat × Nat) (i : Nat) (c : Chunk)
    (h : bytesToCopy c (req i).1 (req i).2 = 0) :
    servedCount (transfer fuel req i c) = 0 ∧ servedBytes (transfer fuel req i c) = some [] := by
  cases fuel with
  | zero => exact ⟨rfl, rfl⟩
  | succ n =>
    simp only [transfer]
    rw [curlReadFunction_zero c _ _ h]
    exact ⟨rfl, rfl⟩

theorem bytesToCopy_drained (c : Chunk) (size nmemb : Nat) (h : c.uploadOffset = c.size) :
    bytesToCopy c size nmemb = 0 := by
  simp only [bytesToCopy, h, sub_self, toInt64, toSizeT]
  norm_num

/-- C3 (evaluation of the code): `Chunk::upload` does not touch `uploadOffset`
before the transfer.  The first upload of the populated chunk `[0, 10)` serves
its ten bytes and leaves the cursor at 10; a second upload of that chunk
announces `Content-Length: 10`, serves no byte at all and still returns
normally.  In general an upload entered with the cursor at `size()` serves
nothing. -/
theorem second_upload_serves_nothing :
    ((Chunk.upload (stubTransport 201) loadedChunk).2.chunk = drainedChunk ∧
        servedBytes (Chunk.upload (stubTransport 201) loadedChunk).2.calls = some tenBytes) ∧
      (drainedChunk.data.length = 10 ∧ drainedChunk.uploadOffset = 10) ∧
      ((Chunk.upload (stubTransport 201) drainedChunk).1 = .ok () ∧
        (Chunk.upload (stubTransport 201) drainedChunk).2.slist =
          ["Content-Type: application/octet-stream", "Content-Length: 10"] ∧
        servedBytes (Chunk.upload (stubTransport 201) drainedChunk).2.calls = some [] ∧
        servedCount (Chunk.upload (stubTransport 201) drainedChunk).2.calls = 0) ∧
      (∀ (t : Transport) (c : Chunk), c.uploadOffset = c.size →
        servedCount (Chunk.upload t c).2.calls = 0 ∧
          servedBytes (Chunk.upload t c).2.calls = some []) := by
  refine ⟨⟨rfl, rfl⟩, ⟨rfl, rfl⟩, ⟨rfl, rfl, rfl, rfl⟩, ?_⟩
  intro t c h
  rcases upload_calls_cases t c with hc | hc
  · rw [hc]
    exact ⟨rfl, rfl⟩
  · rw [hc]
    exact transfer_of_zero _ _ _ _ (bytesToCopy_drained c _ _ h)

theorem upload_error_keeps_handle (t : Transport) (c : Chunk) (code : Nat)
    (h : (Chunk.upload t c).1 = .error (.configFailed code) ∨
      (Chunk.upload t c).1 = .error (.performFailed code)) :
    (Chunk.upload t c).2.handleOpen = true := by
  revert h
  generalize hr : Chunk.upload t c = r
  unfold Chunk.upload at hr
  split at hr
  · subst hr
    simp
  · simp only at hr
    split_ifs at hr <;> subst hr <;> simp

theorem upload_ok_releases (t : Transport) (c : Chunk) (h : (Chunk.upload t c).1 = .ok ()) :
    (Chunk.upload t c).2.handleOpen = false ∧ (Chunk.upload t c).2.slistLive = false := by
  revert h
  generalize hr : Chunk.upload t c = r
  unfold Chunk.upload at hr
  split at hr
  · subst hr
    intro h
    cases h
  · simp only at hr
    split_ifs at hr <;> subst hr <;>
      first
        | exact fun _ => ⟨rfl, rfl⟩
        | (intro h; cases h)

/-- C6 (evaluation of the code): the two release calls run only on the normal
return.  When `curl_easy_setopt(CURLOPT_URL)` reports code 3 the upload raises
the configuration error with the easy handle still open; when
`curl_easy_perform` reports code 56 it raises with the handle and the header
list both still allocated; in general every configuration or perform error
leaves the handle open, and a normal return leaves both released. -/
theorem upload_error_paths_keep_session_open :
    ((Chunk.upload badUrlTransport loadedChunk).1 = .error (.configFailed 3) ∧
        (Chunk.upload badUrlTransport loadedChunk).2.handleOpen = true) ∧
      ((Chunk.upload resetTransport loadedChunk).1 = .error (.performFailed 56) ∧
        (Chunk.upload resetTransport loadedChunk).2.handleOpen = true ∧
        (Chunk.upload resetTransport loadedChunk).2.slistLive = true) ∧
      (∀ (t : Transport) (c : Chunk) (code : Nat),
        ((Chunk.upload t c).1 = .error (.configFailed code) ∨
            (Chunk.upload t c).1 = .error (.performFailed code)) →
          (Chunk.upload t c).2.handleOpen = true) ∧
      (∀ (t : Transport) (c : Chunk), (Chunk.upload t c).1 = .ok () →
        (Chunk.upload t c).2.handleOpen = false ∧ (Chunk.upload t c).2.slistLive = false) :=
  ⟨⟨rfl, rfl⟩, ⟨rfl, rfl, rfl⟩, upload_error_keeps_handle, upload_ok_releases⟩

/-- C7 (counterexample): uploading the chunk `[0, 10)` whose buffer is empty
(never read, or released) configures `Content-Length: 10` while `data.size()`
is 0. -/
theorem content_length_differs_from_buffer_length :
    freshChunk.data.length = 0 ∧
      (Chunk.upload (stubTransport 201) freshChunk).2.slist =
        ["Content-Type: application/octet-stream", "Content-Length: 10"] ∧
      contentLengthHeader 10 ≠ contentLengthHeader (freshChunk.data.length : Int) := by
  refine ⟨rfl, rfl, ?_⟩
  decide

/-- C7 (amended): whenever `Chunk::upload` builds its header list, the list is
the fixed `Content-Type: application/octet-stream` line followed by a
`Content-Length` line carrying `Chunk::size()`, that is `end - start`; this is
the length of the buffer whenever the buffer is populated
(`data.size() == size()`). -/
theorem content_length_is_chunk_size (t : Transport) (c : Chunk)
    (hbuilt : (Chunk.upload t c).2.slist ≠ []) :
    (Chunk.upload t c).2.slist =
        ["Content-Type: application/octet-stream",
          "Content-Length: " ++ toString (toInt64 (c.end_ - c.start))] ∧
      ((c.data.length : Int) = c.size →
        (Chunk.upload t c).2.slist =
          ["Content-Type: application/octet-stream",
            "Content-Length: " ++ toString (c.data.length : Int)]) ∧
      ((Chunk.upload t c).1 = .ok () → (Chunk.upload t c).2.slist ≠ []) := by
  have hcases : (Chunk.upload t c).2.slist = [] ∨
      (Chunk.upload t c).2.slist = c.requestHeaders := by
    unfold Chunk.upload
    cases c.uploadURL t with
    | none => exact Or.inl rfl
    | some url =>
      simp only
      split_ifs <;> first | exact Or.inl rfl | exact Or.inr rfl
  have hlist : (Chunk.upload t c).2.slist = c.requestHeaders := by
    rcases hcases with h | h
    · exact absurd h hbuilt
    · exact h
  refine ⟨hlist, ?_, fun _ => hbuilt⟩
  intro hlen
  rw [hlist, hlen]
  rfl

/-- Witness for C7 (amended): the populated chunk `[0, 10)` on the stub
transport. -/
theorem content_length_is_chunk_size_witness :
    (Chunk.upload (stubTransport 201) loadedChunk).2.slist =
        ["Content-Type: application/octet-stream",
          "Content-Length: " ++ toString (toInt64 (loadedChunk.end_ - loadedChunk.start))] ∧
      ((loadedChunk.data.length : Int) = loadedChunk.size →
        (Chunk.upload (stubTransport 201) loadedChunk).2.slist =
          ["Content-Type: application/octet-stream",
            "Content-Length: " ++ toString (loadedChunk.data.length : Int)]) ∧
      ((Chunk.upload (stubTransport 201) loadedChunk).1 = .ok () →
        (Chunk.upload (stubTransport 201) loadedChunk).2.slist ≠ []) :=
  content_length_is_chunk_size (stubTransport 201) loadedChunk (by decide)

/-! ## Reading the chunk from the local file -/

theorem toInt64_of_range (x : Int) (hlo : -9223372036854775808 ≤ x)
    (hhi : x < 9223372036854775808) : toInt64 x = x := by
  unfold toInt64
  omega

theorem toSizeT_of_nonneg (x : Int) (hlo : 0 ≤ x) (hhi : x < 18446744073709551616) :
    toSizeT x = x.toNat := by
  unfold toSizeT
  rw [Int.emod_eq_of_lt hlo hhi]

theorem IfStream.read_length_le (s : IfStream) (n : Nat) : (s.read n).2.length ≤ n := by
  unfold IfStream.read
  split
  · simp
  · simp only
    split <;> simp

theorem IfStream.read_of_fail (s : IfStream) (n : Nat) (h : s.fail = true) :
    (s.read n).1.fail = true := by
  unfold IfStream.read
  rw [if_pos h]
  exact h

theorem IfStream.read_fail_of_short (s : IfStream) (n : Nat)
    (h : (s.content.drop s.pos).length < n) : (s.read n).1.fail = true := by
  unfold IfStream.read
  split
  · assumption
  · simp only
    have hlen : ((s.content.drop s.pos).take n).length < n := by
      rw [List.length_take]
      omega
    rw [if_pos hlen]

theorem IfStream.read_of_enough (s : IfStream) (n : Nat) (hgood : s.fail = false)
    (h : n ≤ (s.content.drop s.pos).length) :
    (s.read n).1.fail = false ∧ (s.read n).2 = (s.content.drop s.pos).take n := by
  unfold IfStream.read
  rw [if_neg (by simp [hgood])]
  simp only
  have hlen : ¬ ((s.content.drop s.pos).take n).length < n := by
    rw [List.length_take]
    omega
  rw [if_neg hlen]
  exact ⟨hgood, rfl⟩

theorem read_unfold (fs : FileSystem) (c : Chunk)
    (hsize : ¬ toSizeT (toInt64 (c.end_ - c.start)) > vectorMaxSize) :
    Chunk.read fs c =
      (if (((IfStream.openFile (fs c.localFile)).seekg c.start).read
            (toSizeT (toInt64 (c.end_ - c.start)))).1.fail
        then Except.error Error.readFailed else Except.ok (),
        { c with
          data :=
            (((IfStream.openFile (fs c.localFile)).seekg c.start).read
                (toSizeT (toInt64 (c.end_ - c.start)))).2 ++
              (List.replicate (toSizeT (toInt64 (c.end_ - c.start))) (0 : Byte)).drop
                (((IfStream.openFile (fs c.localFile)).seekg c.start).read
                  (toSizeT (toInt64 (c.end_ - c.start)))).2.length }) := by
  unfold Chunk.read
  simp only
  rw [if_neg hsize]
  split <;> rfl

theorem read_ignores_old_data (fs : FileSystem) (c : Chunk) (old : List Byte) :
    (Chunk.read fs { c with data := old }).1 = (Chunk.read fs c).1 ∧
      (Chunk.read fs { c with data := old }).2 = (Chunk.read fs c).2 :=
  ⟨rfl, rfl⟩

theorem read_then_clear (fs : FileSystem) (c : Chunk) : (Chunk.read fs c).2.clear = c.clear := by
  unfold Chunk.read
  simp only
  split
  · rfl
  · split <;> rfl

theorem seekg_of_open (bytes : List Byte) (off : Int) (h0 : 0 ≤ off) :
    (IfStream.openFile (some bytes)).seekg off =
      { content := bytes, pos := off.toNat, fail := false } := by
  simp [IfStream.openFile, IfStream.seekg, not_lt.mpr h0]

theorem seekg_negative_fails (f : Option (List Byte)) (off : Int) (h : off < 0) :
    ((IfStream.openFile f).seekg off).fail = true := by
  cases f <;> simp [IfStream.openFile, IfStream.seekg, h]

theorem seekg_unopened_fails (off : Int) : ((IfStream.openFile none).seekg off).fail = true := by
  simp [IfStream.openFile, IfStream.seekg]

theorem read_data_length (fs : FileSystem) (c : Chunk)
    (hsize : ¬ toSizeT (toInt64 (c.end_ - c.start)) > vectorMaxSize) :
    (Chunk.read fs c).2.data.length = toSizeT (toInt64 (c.end_ - c.start)) := by
  rw [read_unfold fs c hsize]
  simp only [List.length_append, List.length_drop, List.length_replicate]
  have hle := IfStream.read_length_le ((IfStream.openFile (fs c.localFile)).seekg c.start)
    (toSizeT (toInt64 (c.end_ - c.start)))
  omega

/-- C4: when the source file holds `bytes` and `0 <= start < end <= length`,
`Chunk::read` succeeds and leaves a buffer of exactly `end - start` bytes, the
bytes of the file at offsets `[start, end)`, whatever the buffer held before;
reading again after `clear` gives the same buffer. -/
theorem read_loads_byte_range (fs : FileSystem) (c : Chunk) (bytes : List Byte)
    (hfile : fs c.localFile = some bytes) (h0 : 0 ≤ c.start) (h1 : c.start < c.end_)
    (h2 : c.end_ ≤ (bytes.length : Int)) (h3 : c.end_ < 9223372036854775808) :
    (Chunk.read fs c).1 = .ok () ∧
      ((Chunk.read fs c).2.data.length : Int) = c.end_ - c.start ∧
      (Chunk.read fs c).2.data = (bytes.drop c.start.toNat).take (c.end_ - c.start).toNat ∧
      (∀ i : Nat, (i : Int) < c.end_ - c.start →
        (Chunk.read fs c).2.data[i]? = bytes[c.start.toNat + i]?) ∧
      (∀ old : List Byte,
        (Chunk.read fs { c with data := old }).1 = .ok () ∧
          (Chunk.read fs { c with data := old }).2.data = (Chunk.read fs c).2.data) ∧
      ((Chunk.read fs (Chunk.read fs c).2.clear).1 = .ok () ∧
        (Chunk.read fs (Chunk.read fs c).2.clear).2.data = (Chunk.read fs c).2.data) := by
  have hlen : toInt64 (c.end_ - c.start) = c.end_ - c.start :=
    toInt64_of_range _ (by omega) (by omega)
  have hsz : toSizeT (c.end_ - c.start) = (c.end_ - c.start).toNat :=
    toSizeT_of_nonneg _ (by omega) (by omega)
  have hsize : ¬ toSizeT (toInt64 (c.end_ - c.start)) > vectorMaxSize := by
    rw [hlen, hsz]
    unfold vectorMaxSize
    omega
  have henough : (c.end_ - c.start).toNat ≤ (bytes.drop c.start.toNat).length := by
    rw [List.length_drop]
    omega
  have hstream := IfStream.read_of_enough
    { content := bytes, pos := c.start.toNat, fail := false } (c.end_ - c.start).toNat rfl henough
  have hok : (Chunk.read fs c).1 = .ok () := by
    rw [read_unfold fs c hsize, hfile, seekg_of_open bytes c.start h0, hlen, hsz]
    simp only
    rw [hstream.1]
    rfl
  have hdata : (Chunk.read fs c).2.data =
      (bytes.drop c.start.toNat).take (c.end_ - c.start).toNat := by
    rw [read_unfold fs c hsize, hfile, seekg_of_open bytes c.start h0, hlen, hsz]
    simp only
    rw [hstream.2]
    have htake : ((bytes.drop c.start.toNat).take (c.end_ - c.start).toNat).length =
        (c.end_ - c.start).toNat := by
      rw [List.length_take]
      omega
    have hzeros : (List.replicate (c.end_ - c.start).toNat (0 : Byte)).drop
        (c.end_ - c.start).toNat = [] := List.drop_of_length_le (by simp)
    rw [htake, hzeros, List.append_nil]
  have hagain := read_ignores_old_data fs c
  refine ⟨hok, ?_, hdata, ?_, ?_, ?_⟩
  · rw [hdata, List.length_take, List.length_drop]
    omega
  · intro i hi
    rw [hdata, List.getElem?_take_of_lt (by omega), List.getElem?_drop]
  · intro old
    exact ⟨(hagain old).1.trans hok, congrArg Chunk.data (hagain old).2⟩
  · rw [read_then_clear]
    exact ⟨(hagain []).1.trans hok, congrArg Chunk.data (hagain []).2⟩

/-- Witness for C4: the chunk `[0, 10)` of the 10-byte file. -/
theorem read_loads_byte_range_witness :
    (Chunk.read demoFS freshChunk).1 = .ok () ∧
      ((Chunk.read demoFS freshChunk).2.data.length : Int) = freshChunk.end_ - freshChunk.start ∧
      (Chunk.read demoFS freshChunk).2.data =
        (tenBytes.drop freshChunk.start.toNat).take (freshChunk.end_ - freshChunk.start).toNat ∧
      (∀ i : Nat, (i : Int) < freshChunk.end_ - freshChunk.start →
        (Chunk.read demoFS freshChunk).2.data[i]? = tenBytes[freshChunk.start.toNat + i]?) ∧
      (∀ old : List Byte,
        (Chunk.read demoFS { freshChunk with data := old }).1 = .ok () ∧
          (Chunk.read demoFS { freshChunk with data := old }).2.data =
            (Chunk.read demoFS freshChunk).2.data) ∧
      ((Chunk.read demoFS (Chunk.read demoFS freshChunk).2.clear).1 = .ok () ∧
        (Chunk.read demoFS (Chunk.read demoFS freshChunk).2.clear).2.data =
          (Chunk.read demoFS freshChunk).2.data) :=
  read_loads_byte_range demoFS freshChunk tenBytes rfl (by decide) (by decide) (by decide)
    (by decide)

/-- C5 (counterexample): reading the chunk `[0, 10)` from a 5-byte file fails,
and the buffer it leaves has length 10, not 0. -/
theorem short_read_leaves_sized_buffer :
    demoFS shortChunk.localFile = some fiveBytes ∧
      (fiveBytes.length : Int) < shortChunk.end_ ∧
      shortChunk.data = [] ∧
      (Chunk.read demoFS shortChunk).1 = .error .readFailed ∧
      (Chunk.read demoFS shortChunk).2.data = [10, 11, 12, 13, 14, 0, 0, 0, 0, 0] ∧
      (Chunk.read demoFS shortChunk).2.data.length = 10 := by
  refine ⟨rfl, by decide, rfl, rfl, rfl, rfl⟩

theorem IfStream.read_bytes_of_fail (s : IfStream) (n : Nat) (h : s.fail = true) :
    (s.read n).2 = [] := by
  unfold IfStream.read
  rw [if_pos h]

theorem IfStream.read_bytes_of_good (s : IfStream) (n : Nat) (h : s.fail = false) :
    (s.read n).2 = (s.content.drop s.pos).take n := by
  unfold IfStream.read
  rw [if_neg (by simp [h])]
  simp only
  split <;> rfl

theorem read_data_unfold (fs : FileSystem) (c : Chunk)
    (hsize : ¬ toSizeT (toInt64 (c.end_ - c.start)) > vectorMaxSize) :
    (Chunk.read fs c).2.data =
      (((IfStream.openFile (fs c.localFile)).seekg c.start).read
          (toSizeT (toInt64 (c.end_ - c.start)))).2 ++
        List.replicate
          (toSizeT (toInt64 (c.end_ - c.start)) -
            (((IfStream.openFile (fs c.localFile)).seekg c.start).read
              (toSizeT (toInt64 (c.end_ - c.start)))).2.length) (0 : Byte) := by
  rw [read_unfold fs c hsize, List.drop_replicate]

/-- C5 (amended): for a chunk with `start < end` whose source file is shorter
than `end` or cannot be opened, `Chunk::read` raises its read error; the
buffer it leaves has length `end - start` (not 0): it holds the bytes of the
file from offset `start` on (none when the file cannot be opened or `start` is
negative) followed by zero bytes; and `triesLeft` keeps its value. -/
theorem read_fails_on_short_file (fs : FileSystem) (c : Chunk) (h1 : c.start < c.end_)
    (h3 : c.end_ - c.start < 9223372036854775808)
    (hshort : ∀ bytes, fs c.localFile = some bytes → (bytes.length : Int) < c.end_) :
    (Chunk.read fs c).1 = .error .readFailed ∧
      ((Chunk.read fs c).2.data.length : Int) = c.end_ - c.start ∧
      (Chunk.read fs c).2.data.length ≠ 0 ∧
      (Chunk.read fs c).2.triesLeft = c.triesLeft ∧
      (∀ bytes, fs c.localFile = some bytes → 0 ≤ c.start →
        (Chunk.read fs c).2.data =
          bytes.drop c.start.toNat ++
            List.replicate ((c.end_ - c.start).toNat - (bytes.length - c.start.toNat)) 0) ∧
      ((fs c.localFile = none ∨ c.start < 0) →
        (Chunk.read fs c).2.data = List.replicate (c.end_ - c.start).toNat 0) := by
  have hlen : toInt64 (c.end_ - c.start) = c.end_ - c.start :=
    toInt64_of_range _ (by omega) (by omega)
  have hsz : toSizeT (c.end_ - c.start) = (c.end_ - c.start).toNat :=
    toSizeT_of_nonneg _ (by omega) (by omega)
  have hsize : ¬ toSizeT (toInt64 (c.end_ - c.start)) > vectorMaxSize := by
    rw [hlen, hsz]
    unfold vectorMaxSize
    omega
  have hlength := read_data_length fs c hsize
  rw [hlen, hsz] at hlength
  have hfail : (((IfStream.openFile (fs c.localFile)).seekg c.start).read
      (toSizeT (toInt64 (c.end_ - c.start)))).1.fail = true := by
    cases hfile : fs c.localFile with
    | none => exact IfStream.read_of_fail _ _ (seekg_unopened_fails c.start)
    | some bytes =>
      have hb := hshort bytes hfile
      rcases lt_or_le c.start 0 with hneg | hpos
      · exact IfStream.read_of_fail _ _ (seekg_negative_fails _ c.start hneg)
      · rw [seekg_of_open bytes c.start hpos, hlen, hsz]
        apply IfStream.read_fail_of_short
        simp only [List.length_drop]
        omega
  refine ⟨?_, by omega, by omega, ?_, ?_, ?_⟩
  · rw [read_unfold fs c hsize, hfail]
    rfl
  · rw [read_unfold fs c hsize]
  · intro bytes hfile hpos
    have hb := hshort bytes hfile
    rw [read_data_unfold fs c hsize, hfile, seekg_of_open bytes c.start hpos, hlen, hsz,
      IfStream.read_bytes_of_good _ _ rfl]
    simp only
    have hall : (bytes.drop c.start.toNat).take (c.end_ - c.start).toNat =
        bytes.drop c.start.toNat :=
      List.take_of_length_le (by
        rw [List.length_drop]
        omega)
    rw [hall, List.length_drop]
  · intro hnone
    have hclosed : ((IfStream.openFile (fs c.localFile)).seekg c.start).fail = true := by
      rcases hnone with h | h
      · rw [h]
        exact seekg_unopened_fails c.start
      · exact seekg_negative_fails _ c.start h
    rw [read_data_unfold fs c hsize, IfStream.read_bytes_of_fail _ _ hclosed, hlen, hsz]
    simp

/-- Witness for C5 (amended): the chunk `[0, 10)` of the 5-byte file, whose
failed read leaves the five bytes of the file followed by five zero bytes. -/
theorem read_fails_on_short_file_witness :
    (Chunk.read demoFS shortChunk).1 = .error .readFailed ∧
      ((Chunk.read demoFS shortChunk).2.data.length : Int) =
        shortChunk.end_ - shortChunk.start ∧
      (Chunk.read demoFS shortChunk).2.data.length ≠ 0 ∧
      (Chunk.read demoFS shortChunk).2.triesLeft = shortChunk.triesLeft ∧
      (Chunk.read demoFS shortChunk).2.data =
        fiveBytes.drop shortChunk.start.toNat ++
          List.replicate
            ((shortChunk.end_ - shortChunk.start).toNat -
              (fiveBytes.length - shortChunk.start.toNat)) 0 :=
  have h := read_fails_on_short_file demoFS shortChunk (by decide) (by decide)
    (by
      intro bytes h
      have hb : bytes = fiveBytes := (Option.some.inj h).symm
      subst hb
      decide)
  ⟨h.1, h.2.1, h.2.2.1, h.2.2.2.1, h.2.2.2.2.1 fiveBytes rfl (by decide)⟩

/-! ## Serving the buffer to the transport -/

theorem toInt64_bounds (x : Int) :
    -9223372036854775808 ≤ toInt64 x ∧ toInt64 x < 9223372036854775808 := by
  unfold toInt64
  omega

theorem mulSizeT_le (a b : Nat) : mulSizeT a b ≤ a * b :=
  Nat.mod_le _ _

theorem chunkAfter_cons (c : Chunk) (r : ReadCall) (rest : List ReadCall) :
    chunkAfter c (r :: rest) = chunkAfter r.chunk rest := by
  cases rest with
  | nil => rfl
  | cons r2 rest2 =>
    simp only [chunkAfter, List.getLast?_cons_cons]
    cases h : (r2 :: rest2).getLast? with
    | none => simp at h
    | some x => rfl

theorem size_with_offset (c : Chunk) (off : Int) :
    ({ c with uploadOffset := off } : Chunk).size = c.size := rfl

theorem bytesToCopy_in_range (c : Chunk) (size nmemb : Nat) (h0 : 0 ≤ c.uploadOffset)
    (h1 : c.uploadOffset ≤ c.size) :
    bytesToCopy c size nmemb = min (c.size - c.uploadOffset).toNat (mulSizeT size nmemb) := by
  have hb := toInt64_bounds (c.end_ - c.start)
  have hs : c.size = toInt64 (c.end_ - c.start) := rfl
  have hleft : toInt64 (c.size - c.uploadOffset) = c.size - c.uploadOffset :=
    toInt64_of_range _ (by omega) (by omega)
  unfold bytesToCopy
  simp only
  rw [hleft, toSizeT_of_nonneg _ (by omega) (by omega)]

theorem memcpyFrom_inside (data : List Byte) (off : Int) (n : Nat) (h0 : 0 ≤ off)
    (h1 : off + n ≤ data.length) :
    memcpyFrom data off n = some ((data.drop off.toNat).take n) := by
  unfold memcpyFrom
  rw [if_pos ⟨h0, h1⟩]

theorem transfer_serves_rest (req : Nat → Nat × Nat)
    (hreq : ∀ i, 0 < mulSizeT (req i).1 (req i).2) :
    ∀ (fuel i : Nat) (c : Chunk), (c.data.length : Int) = c.size → 0 ≤ c.uploadOffset →
      c.uploadOffset ≤ c.size → c.size - c.uploadOffset < (fuel : Int) →
      (∃ r, (transfer fuel req i c).getLast? = some r ∧ r.count = 0) ∧
        servedBytes (transfer fuel req i c) = some (c.data.drop c.uploadOffset.toNat) ∧
        servedCount (transfer fuel req i c) = (c.size - c.uploadOffset).toNat ∧
        (chunkAfter c (transfer fuel req i c)).uploadOffset = c.size ∧
        List.Chain (fun a b : Int => a ≤ b) c.uploadOffset
          ((transfer fuel req i c).map fun r => r.chunk.uploadOffset) ∧
        ∀ r ∈ transfer fuel req i c, 0 ≤ r.chunk.uploadOffset ∧ r.chunk.uploadOffset ≤ c.size := by
  intro fuel
  induction fuel with
  | zero =>
    intro i c _ _ h1 hf
    simp only [Nat.cast_zero] at hf
    omega
  | succ n ih =>
    intro i c hpop h0 h1 hf
    have hcount := bytesToCopy_in_range c (req i).1 (req i).2 h0 h1
    by_cases hz : c.uploadOffset = c.size
    · have hb : bytesToCopy c (req i).1 (req i).2 = 0 := bytesToCopy_drained c _ _ hz
      have hdrop : c.data.drop c.uploadOffset.toNat = [] :=
        List.drop_of_length_le (by omega)
      simp only [transfer]
      rw [curlReadFunction_zero c _ _ hb, hdrop]
      refine ⟨⟨_, rfl, rfl⟩, rfl, ?_, hz, ?_, ?_⟩
      · simp [servedCount, hz]
      · simp
      · intro r hr
        simp only [if_true, List.mem_singleton] at hr
        subst hr
        exact ⟨h0, h1⟩
    · have hlt : c.uploadOffset < c.size := lt_of_le_of_ne h1 hz
      have hpos : 0 < bytesToCopy c (req i).1 (req i).2 := by
        rw [hcount]
        have := hreq i
        omega
      have hle : (bytesToCopy c (req i).1 (req i).2 : Int) ≤ c.size - c.uploadOffset := by
        rw [hcount]
        omega
      have hb := toInt64_bounds (c.end_ - c.start)
      have hs : c.size = toInt64 (c.end_ - c.start) := rfl
      have hoff : toInt64 (c.uploadOffset + bytesToCopy c (req i).1 (req i).2) =
          c.uploadOffset + bytesToCopy c (req i).1 (req i).2 :=
        toInt64_of_range _ (by omega) (by omega)
      have hcopy := memcpyFrom_inside c.data c.uploadOffset
        (bytesToCopy c (req i).1 (req i).2) h0 (by omega)
      simp only [transfer]
      rw [curlReadFunction_pos c _ _ hpos, hoff, hcopy]
      simp only
      rw [if_neg (by omega)]
      have hrest := ih (i + 1)
        { c with uploadOffset := c.uploadOffset + bytesToCopy c (req i).1 (req i).2 }
        hpop (by simp only; omega) (by
          show c.uploadOffset + _ ≤ c.size
          omega) (by
          show c.size - (c.uploadOffset + _) < (n : Int)
          push_cast at hf
          omega)
      simp only [size_with_offset] at hrest
      obtain ⟨⟨rl, hrl, hrl0⟩, hbytes, hsum, hafter, hchain, hall⟩ := hrest
      refine ⟨?_, ?_, ?_, ?_, ?_, ?_⟩
      · refine ⟨rl, ?_, hrl0⟩
        rw [List.getLast?_cons, hrl]
        rfl
      · simp only [servedBytes, hbytes]
        congr 1
        have hnat : (c.uploadOffset + (bytesToCopy c (req i).1 (req i).2 : Int)).toNat =
            c.uploadOffset.toNat + bytesToCopy c (req i).1 (req i).2 := by omega
        rw [hnat, ← List.drop_drop]
        exact List.take_append_drop _ _
      · simp only [servedCount, List.map_cons, List.sum_cons] at hsum ⊢
        rw [hsum]
        omega
      · rw [chunkAfter_cons]
        exact hafter
      · simp only [List.map_cons]
        exact List.Chain.cons (by omega) hchain
      · intro r hr
        rcases List.mem_cons.mp hr with h | h
        · subst h
          exact ⟨by
            show 0 ≤ c.uploadOffset + _
            omega, by
            show c.uploadOffset + _ ≤ c.size
            omega⟩
        · exact hall r h

/-- C2: for a chunk whose buffer is populated (`data.size() == end - start`)
with `uploadOffset == 0`, and requests that each ask for a positive number of
bytes (`size * nmemb > 0` as the callback computes it), calling
`curlReadFunction` until it returns 0 ends within `data.size() + 1` calls and
serves exactly the bytes of the buffer, in order: the counts add up to
`data.size()`, the cursor ends at `data.size()`, never decreases from one call
to the next, and stays within `0 .. data.size()` after every call. -/
theorem callback_serves_whole_buffer (c : Chunk) (req : Nat → Nat × Nat) (fuel : Nat)
    (hpop : (c.data.length : Int) = c.end_ - c.start)
    (hfit : c.end_ - c.start < 9223372036854775808)
    (hstart : c.uploadOffset = 0)
    (hreq : ∀ i, 0 < mulSizeT (req i).1 (req i).2)
    (hfuel : c.data.length < fuel) :
    (∃ r, (transfer fuel req 0 c).getLast? = some r ∧ r.count = 0) ∧
      servedBytes (transfer fuel req 0 c) = some c.data ∧
      servedCount (transfer fuel req 0 c) = c.data.length ∧
      (chunkAfter c (transfer fuel req 0 c)).uploadOffset = c.data.length ∧
      List.Chain (fun a b : Int => a ≤ b) 0
        ((transfer fuel req 0 c).map fun r => r.chunk.uploadOffset) ∧
      ∀ r ∈ transfer fuel req 0 c,
        0 ≤ r.chunk.uploadOffset ∧ r.chunk.uploadOffset ≤ c.data.length := by
  have hsize : c.size = c.end_ - c.start := toInt64_of_range _ (by omega) (by omega)
  have hlen : (c.data.length : Int) = c.size := by rw [hsize, hpop]
  have hmain := transfer_serves_rest req hreq fuel 0 c hlen (by omega) (by omega) (by omega)
  rw [hstart, ← hlen] at hmain
  simpa using hmain

/-- Witness for C2: the populated chunk `[0, 10)` served 4 bytes at a time. -/
theorem callback_serves_whole_buffer_witness :
    (∃ r, (transfer 11 fourAtATime 0 loadedChunk).getLast? = some r ∧ r.count = 0) ∧
      servedBytes (transfer 11 fourAtATime 0 loadedChunk) = some loadedChunk.data ∧
      servedCount (transfer 11 fourAtATime 0 loadedChunk) = loadedChunk.data.length ∧
      (chunkAfter loadedChunk (transfer 11 fourAtATime 0 loadedChunk)).uploadOffset =
        loadedChunk.data.length ∧
      List.Chain (fun a b : Int => a ≤ b) 0
        ((transfer 11 fourAtATime 0 loadedChunk).map fun r => r.chunk.uploadOffset) ∧
      ∀ r ∈ transfer 11 fourAtATime 0 loadedChunk,
        0 ≤ r.chunk.uploadOffset ∧ r.chunk.uploadOffset ≤ loadedChunk.data.length :=
  callback_serves_whole_buffer loadedChunk fourAtATime 11 (by decide) (by decide) rfl
    (fun _ => (by decide : 0 < mulSizeT 1 4)) (by decide)

/-- C10 (counterexample): on the chunk `[0, 10)` with an empty buffer, a
request for 4 bytes makes `curlReadFunction` compute `bytesToCopy = 4` and copy
from `data[0 .. 4)`, outside the empty vector; on the populated chunk with the
cursor at 11 (past `end - start`), it computes 4 and copies from
`data[11 .. 15)`, outside the 10-byte vector. -/
theorem callback_copies_outside_buffer :
    (freshChunk.data.length = 0 ∧ bytesToCopy freshChunk 1 4 = 4 ∧
        (curlReadFunction freshChunk 1 4).copied = none ∧
        (freshChunk.data.length : Int) < freshChunk.uploadOffset + 4) ∧
      (overrunChunk.data.length = 10 ∧ overrunChunk.uploadOffset = 11 ∧
        bytesToCopy overrunChunk 1 4 = 4 ∧
        (curlReadFunction overrunChunk 1 4).copied = none ∧
        (overrunChunk.data.length : Int) < overrunChunk.uploadOffset + 4) := by
  refine ⟨⟨rfl, rfl, rfl, by decide⟩, ⟨rfl, rfl, rfl, rfl, by decide⟩⟩

/-- C10 (amended): in every chunk state and for every `size` and `nmemb`, one
call of `curlReadFunction` returns the minimum, over `size_t`, of
`end - start - uploadOffset` and `size * nmemb`, which is at most
`size * nmemb`; when moreover `end - start <= data.size()` (the buffer may be
longer than the range) and `0 <= uploadOffset <= end - start`, the bytes copied
lie inside the buffer: `uploadOffset + count <= data.size()` and they are
`data[uploadOffset .. uploadOffset + count)`. -/
theorem callback_count_bounds (c : Chunk) (size nmemb : Nat) :
    (curlReadFunction c size nmemb).count =
        min (toSizeT (toInt64 (toInt64 (c.end_ - c.start) - c.uploadOffset)))
          (mulSizeT size nmemb) ∧
      (curlReadFunction c size nmemb).count ≤ mulSizeT size nmemb ∧
      (curlReadFunction c size nmemb).count ≤ size * nmemb ∧
      (c.size ≤ (c.data.length : Int) → 0 ≤ c.uploadOffset → c.uploadOffset ≤ c.size →
        c.uploadOffset + ((curlReadFunction c size nmemb).count : Int) ≤ c.size ∧
          c.uploadOffset + ((curlReadFunction c size nmemb).count : Int) ≤ c.data.length ∧
          (curlReadFunction c size nmemb).copied =
            some ((c.data.drop c.uploadOffset.toNat).take (curlReadFunction c size nmemb).count))
    := by
  have hcount := curlReadFunction_count c size nmemb
  have hmin : bytesToCopy c size nmemb ≤ mulSizeT size nmemb := Nat.min_le_right _ _
  refine ⟨hcount, hcount ▸ hmin, hcount ▸ hmin.trans (mulSizeT_le size nmemb), ?_⟩
  intro hpop h0 h1
  have hrange := bytesToCopy_in_range c size nmemb h0 h1
  have hle : (bytesToCopy c size nmemb : Int) ≤ c.size - c.uploadOffset := by
    rw [hrange]
    omega
  rcases Nat.eq_zero_or_pos (bytesToCopy c size nmemb) with hz | hpos
  · rw [curlReadFunction_zero c size nmemb hz]
    refine ⟨by simp only [Nat.cast_zero]; omega, by simp only [Nat.cast_zero]; omega, ?_⟩
    simp
  · rw [curlReadFunction_pos c size nmemb hpos]
    exact ⟨by simp only; omega, by simp only; omega, memcpyFrom_inside _ _ _ h0 (by omega)⟩

/-- Witness for C10 (amended): the chunk `[0, 10)` holding a 12-byte buffer with
the cursor at 8, asked for 4 bytes: the call returns 2 and copies
`data[8 .. 10)`. -/
theorem callback_count_bounds_witness :
    paddedChunk.size ≤ (paddedChunk.data.length : Int) ∧
      (paddedChunk.data.length : Int) ≠ paddedChunk.end_ - paddedChunk.start ∧
      (curlReadFunction paddedChunk 1 4).count = 2 ∧
      paddedChunk.uploadOffset + ((curlReadFunction paddedChunk 1 4).count : Int) ≤
        paddedChunk.size ∧
      paddedChunk.uploadOffset + ((curlReadFunction paddedChunk 1 4).count : Int) ≤
        paddedChunk.data.length ∧
      (curlReadFunction paddedChunk 1 4).copied =
        some ((paddedChunk.data.drop paddedChunk.uploadOffset.toNat).take
          (curlReadFunction paddedChunk 1 4).count) :=
  have h := (callback_count_bounds paddedChunk 1 4).2.2.2 (by decide) (by decide) (by decide)
  ⟨by decide, by decide, rfl, h.1, h.2.1, h.2.2⟩

end UA
